import Mathlib

/-!
Verification of the CLOC line classifier from `src/cloc.c` (devutils).

The byte buffer is modelled as `List Nat` (byte values 0..255, though nothing
in the scanner depends on an upper bound).  The scanner `count_lines` is a
shallow embedding of the C function `count_lines` (cloc.c lines 105-195):
one position cursor moving left to right, with state variables
`in_block_comment`, `in_line_comment`, `has_code`, `in_string`, `string_char`.
The C loop advances the pointer on every iteration; the embedding runs the
loop body through `scanStep` and bounds the iteration count with explicit
fuel, returning `none` when the fuel is exhausted before the cursor reaches
the end of the buffer.  `count_lines` supplies fuel equal to the buffer
length, which is proved sufficient whenever the comment markers are
non-empty (each step strictly advances the cursor).
-/

set_option autoImplicit false

namespace Cloc

/-- Newline byte value. -/
def NL : Nat := 10

/-- Backslash byte value. -/
def BSL : Nat := 92

/-- C `isspace` in the "C" locale, on a byte: space, \t, \n, \v, \f, \r.
Mirrors `isspace((unsigned char)*p)` at cloc.c line 136. -/
def isspaceB (c : Nat) : Bool :=
  c == 32 || c == 9 || c == 10 || c == 11 || c == 12 || c == 13

/-- The comment-syntax fields of `lang_syntax_t` (cloc.h) used by
`count_lines`: line-comment marker, block-comment start and end markers,
each a byte string. -/
structure LangSyntax where
  line_comment : List Nat
  block_start : List Nat
  block_end : List Nat
deriving DecidableEq, Repr

/-- The counter fields of `file_stats_t` (cloc.h) populated by
`count_lines`: code lines, comment lines, blank lines, byte size. -/
structure FileStats where
  lines_code : Nat
  lines_comment : Nat
  lines_blank : Nat
  size : Nat
deriving DecidableEq, Repr

/-- The local state of the `count_lines` loop (cloc.c lines 108-112). -/
structure ScanState where
  in_block_comment : Bool
  in_line_comment : Bool
  has_code : Bool
  in_string : Bool
  string_char : Nat
deriving DecidableEq, Repr

/-- Initial scanner state: all flags clear (cloc.c lines 108-112). -/
def initScanState : ScanState :=
  { in_block_comment := false, in_line_comment := false, has_code := false,
    in_string := false, string_char := 0 }

/-- Marker match at cursor `i`:
`p + strlen(marker) <= end && memcmp(p, marker, strlen(marker)) == 0`
(cloc.c lines 159-160, 167-168, 176-177). -/
def matchesAt (buf : List Nat) (i : Nat) (m : List Nat) : Bool :=
  decide (i + m.length ≤ buf.length) && ((buf.drop i).take m.length == m)

/-- End-of-line classification (cloc.c lines 119-127): a line inside a
line or block comment counts as comment, else `has_code` decides code
versus blank. -/
def classifyLine (st : ScanState) (acc : FileStats) : FileStats :=
  if st.in_line_comment then { acc with lines_comment := acc.lines_comment + 1 }
  else if st.in_block_comment then { acc with lines_comment := acc.lines_comment + 1 }
  else if st.has_code then { acc with lines_code := acc.lines_code + 1 }
  else { acc with lines_blank := acc.lines_blank + 1 }

/-- The string-handling block (cloc.c lines 142-150): outside comments, a
quote byte opens a string (recording the quote character and setting
`has_code`); inside a string, a byte equal to the remembered quote closes
it unless the single immediately preceding byte is a backslash. -/
def stringUpdate (buf : List Nat) (i : Nat) (st : ScanState) (c : Nat) : ScanState :=
  if !st.in_line_comment && !st.in_block_comment then
    if !st.in_string && (c == 34 || c == 39) then
      { st with in_string := true, string_char := c, has_code := true }
    else if st.in_string && c == st.string_char && !(buf.getD (i - 1) 0 == BSL) then
      { st with in_string := false }
    else st
  else st

/-- The part of the loop body after the string-handling block (cloc.c
lines 152-188), applied to the state `st1` left by that block: the
in-string skip, the three marker checks, and the code-content default. -/
def scanStepTail (buf : List Nat) (lang : LangSyntax) (i : Nat) (acc : FileStats)
    (st1 : ScanState) : Nat × ScanState × FileStats :=
  if st1.in_string then
    (i + 1, st1, acc)
  else if !st1.in_line_comment && !st1.in_block_comment &&
      matchesAt buf i lang.block_start then
    (i + lang.block_start.length, { st1 with in_block_comment := true }, acc)
  else if st1.in_block_comment && matchesAt buf i lang.block_end then
    (i + lang.block_end.length, { st1 with in_block_comment := false }, acc)
  else if !st1.in_block_comment && !st1.in_line_comment &&
      matchesAt buf i lang.line_comment then
    (i + lang.line_comment.length, { st1 with in_line_comment := true }, acc)
  else if !st1.in_block_comment && !st1.in_line_comment then
    (i + 1, { st1 with has_code := true }, acc)
  else
    (i + 1, st1, acc)

/-- One iteration of the `count_lines` loop body (cloc.c lines 116-189),
assuming `i < buf.length`.  Returns the new cursor, state and counters. -/
def scanStep (buf : List Nat) (lang : LangSyntax) (i : Nat) (st : ScanState)
    (acc : FileStats) : Nat × ScanState × FileStats :=
  if buf.getD i 0 == NL || i == buf.length - 1 then
    (i + 1, { st with in_line_comment := false, has_code := false }, classifyLine st acc)
  else if isspaceB (buf.getD i 0) then
    (i + 1, st, acc)
  else
    scanStepTail buf lang i acc (stringUpdate buf i st (buf.getD i 0))

/-- The `count_lines` main loop (cloc.c lines 116-189), with explicit fuel
bounding the number of iterations; `none` when the fuel runs out before
the cursor reaches the end. -/
def countLoop (buf : List Nat) (lang : LangSyntax) :
    Nat → Nat → ScanState → FileStats → Option (ScanState × FileStats)
  | 0, i, st, acc => if i < buf.length then none else some (st, acc)
  | fuel + 1, i, st, acc =>
    if i < buf.length then
      countLoop buf lang fuel (scanStep buf lang i st acc).1
        (scanStep buf lang i st acc).2.1 (scanStep buf lang i st acc).2.2
    else some (st, acc)

/-- The post-loop fix-up of `count_lines` (cloc.c lines 192-194): one more
code line when `has_code` survived the loop and the last byte is not a
newline.  (The C condition short-circuits on `has_code`, so the last-byte
read never happens on an empty buffer; `getD` makes the read total here.) -/
def finalFix (buf : List Nat) (st : ScanState) (acc : FileStats) : FileStats :=
  if st.has_code && !(buf.getD (buf.length - 1) 0 == NL) then
    { acc with lines_code := acc.lines_code + 1 }
  else acc

/-- Shallow embedding of `count_lines` (cloc.c lines 105-195): run the loop
from the start of the buffer with fresh state and `stats->size = size`,
then apply the post-loop fix-up.  Fuel is the buffer length. -/
def count_lines (buf : List Nat) (lang : LangSyntax) : Option FileStats :=
  Option.map (fun r => finalFix buf r.1 r.2)
    (countLoop buf lang buf.length 0 initScanState
      { lines_code := 0, lines_comment := 0, lines_blank := 0, size := buf.length })

/-- Bytes of an ASCII string, for writing test buffers. -/
def bytesOf (s : String) : List Nat := s.toList.map Char.toNat

/-- The C language descriptor from the `languages` table (cloc.c line 32):
line comment `//`, block comments delimited by the slash-star and
star-slash pairs. -/
def cSyntax : LangSyntax :=
  { line_comment := [47, 47], block_start := [47, 42], block_end := [42, 47] }

/-- Variant of `stringUpdate` that signals (with `none`) any evaluation of
the one-byte lookback `*(p-1)` at cursor position 0, where the C read would
be out of range.  Identical to `stringUpdate` otherwise. -/
def stringUpdateChk (buf : List Nat) (i : Nat) (st : ScanState) (c : Nat) :
    Option ScanState :=
  if !st.in_line_comment && !st.in_block_comment then
    if !st.in_string && (c == 34 || c == 39) then
      some { st with in_string := true, string_char := c, has_code := true }
    else if st.in_string && c == st.string_char then
      if i = 0 then none
      else if !(buf.getD (i - 1) 0 == BSL) then some { st with in_string := false }
      else some st
    else some st
  else some st

/-- Variant of `scanStep` built on `stringUpdateChk`: `none` exactly when
the loop body would read the byte before the start of the buffer. -/
def scanStepChk (buf : List Nat) (lang : LangSyntax) (i : Nat) (st : ScanState)
    (acc : FileStats) : Option (Nat × ScanState × FileStats) :=
  if buf.getD i 0 == NL || i == buf.length - 1 then
    some (i + 1, { st with in_line_comment := false, has_code := false }, classifyLine st acc)
  else if isspaceB (buf.getD i 0) then
    some (i + 1, st, acc)
  else
    Option.map (scanStepTail buf lang i acc) (stringUpdateChk buf i st (buf.getD i 0))

/-- The `count_lines` loop built on `scanStepChk`: `none` when the fuel
runs out or when an out-of-range lookback is attempted. -/
def countLoopChk (buf : List Nat) (lang : LangSyntax) :
    Nat → Nat → ScanState → FileStats → Option (ScanState × FileStats)
  | 0, i, st, acc => if i < buf.length then none else some (st, acc)
  | fuel + 1, i, st, acc =>
    if i < buf.length then
      match scanStepChk buf lang i st acc with
      | none => none
      | some r => countLoopChk buf lang fuel r.1 r.2.1 r.2.2
    else some (st, acc)

/-- Sum of the three line counters of a `FileStats`. -/
def linesSum (s : FileStats) : Nat := s.lines_code + s.lines_comment + s.lines_blank

/-- Number of newline bytes in a buffer. -/
def nlCount (l : List Nat) : Nat := l.count NL

/-- The spec's line count of a buffer: the number of newline bytes, plus
one more if the buffer is non-empty and its last byte is not a newline. -/
def totalLines (l : List Nat) : Nat :=
  nlCount l + (if l ≠ [] ∧ l.getD (l.length - 1) 0 ≠ NL then 1 else 0)

/-! Error codes from cloc.h. -/

def CLOC_SUCCESS : Int := 0
def CLOC_ERROR_IOFAIL : Int := -1
def CLOC_ERROR_MEM : Int := -2
def CLOC_ERROR_ARG : Int := -3
def CLOC_ERROR_LIMIT : Int := -4

/-- One directory entry as seen by the `process_directory` loop (cloc.c
lines 263-291).  The file-system syscalls are abstracted: `efile` carries
the result code that `process_file` returns for that file (`CLOC_SUCCESS`,
or `CLOC_ERROR_ARG` for an unidentified language, or `CLOC_ERROR_IOFAIL` for
open/stat/mmap failures); `edir` carries whether `opendir` on the
subdirectory succeeds, plus its entries; `eskip` covers the entries the
loop silently skips (failed `lstat`, non-regular non-directory files, and
over-long paths).  `hidden` is the `d_name[0] == '.'` test (which also
covers `..`). -/
inductive DirEntry where
  | efile (hidden : Bool) (res : Int)
  | edir (hidden : Bool) (opensOk : Bool) (sub : List DirEntry)
  | eskip
deriving Repr

/-- The `process_directory` entry loop (cloc.c lines 263-294), with the
callback result abstracted as the constant `cbRes` (the C callback
`update_stats_callback` returns `CLOC_SUCCESS` until the language-table
limit is hit).  Returns the function's result code and the number of files
passed to the callback.  Hidden entries are skipped; a subdirectory whose
recursive scan fails breaks the loop with that result; a file whose
`process_file` result is not `CLOC_SUCCESS` is skipped silently; a
successful file is passed to the callback, and a non-zero callback result
breaks the loop with `CLOC_ERROR_ARG`. -/
def procEntries (cbRes : Int) : List DirEntry → Int × Nat
  | [] => (CLOC_SUCCESS, 0)
  | DirEntry.efile hidden res :: rest =>
    if hidden then procEntries cbRes rest
    else if res = CLOC_SUCCESS then
      if cbRes ≠ 0 then (CLOC_ERROR_ARG, 1)
      else
        match procEntries cbRes rest with
        | (r, n) => (r, n + 1)
    else procEntries cbRes rest
  | DirEntry.edir hidden opensOk sub :: rest =>
    if hidden then procEntries cbRes rest
    else
      match (if opensOk then procEntries cbRes sub else (CLOC_ERROR_IOFAIL, 0)) with
      | (r, n) =>
        if r ≠ CLOC_SUCCESS then (r, n)
        else
          match procEntries cbRes rest with
          | (r2, n2) => (r2, n + n2)
  | DirEntry.eskip :: rest => procEntries cbRes rest

/-- The exit-code contribution of one directory argument in `main`
(cloc.c lines 430-434): 1 when `process_directory` returns a failure,
0 otherwise. -/
def dirExitCode (cbRes : Int) (entries : List DirEntry) : Nat :=
  if (procEntries cbRes entries).1 ≠ CLOC_SUCCESS then 1 else 0

/-- Contribution of the post-loop fix-up (cloc.c lines 192-194) to the
line-counter sum: 1 exactly when the fix-up increments `lines_code`. -/
def fixCount (buf : List Nat) (st : ScanState) : Nat :=
  if st.has_code && !(buf.getD (buf.length - 1) 0 == NL) then 1 else 0

/-- Lines not yet classified when the cursor sits at position `i`: the
newline bytes at positions `≥ i`, plus the final line when the buffer does
not end in a newline and the cursor has not passed the end. -/
def remLines (buf : List Nat) (i : Nat) : Nat :=
  nlCount (buf.drop i) +
    (if i < buf.length ∧ buf.getD (buf.length - 1) 0 ≠ NL then 1 else 0)

/-- Upper-bound potential of a loop configuration: before the end of the
buffer, the not-yet-classified lines; at or past the end, the pending
fix-up contribution. -/
def pot (buf : List Nat) (i : Nat) (st : ScanState) : Nat :=
  if buf.length ≤ i then fixCount buf st else remLines buf i

/-! ## Helper lemmas -/

theorem matchesAt_le {buf : List Nat} {i : Nat} {m : List Nat}
    (h : matchesAt buf i m = true) : i + m.length ≤ buf.length := by
  unfold matchesAt at h
  simp only [Bool.and_eq_true, decide_eq_true_eq, beq_iff_eq] at h
  exact h.1

theorem matchesAt_bytes {buf : List Nat} {i : Nat} {m : List Nat}
    (h : matchesAt buf i m = true) : (buf.drop i).take m.length = m := by
  unfold matchesAt at h
  simp only [Bool.and_eq_true, decide_eq_true_eq, beq_iff_eq] at h
  exact h.2

theorem linesSum_classifyLine (st : ScanState) (acc : FileStats) :
    linesSum (classifyLine st acc) = linesSum acc + 1 := by
  unfold classifyLine linesSum
  split_ifs <;> simp <;> omega

theorem linesSum_finalFix (buf : List Nat) (st : ScanState) (acc : FileStats) :
    linesSum (finalFix buf st acc) = linesSum acc + fixCount buf st := by
  unfold finalFix fixCount linesSum
  split_ifs <;> simp <;> omega

theorem drop_getD_cons {buf : List Nat} {i : Nat} (h : i < buf.length) :
    buf.drop i = buf.getD i 0 :: buf.drop (i + 1) := by
  rw [List.drop_eq_getElem_cons h, List.getD_eq_getElem buf 0 h]

theorem remLines_zero (buf : List Nat) : remLines buf 0 = totalLines buf := by
  cases buf <;> simp [remLines, totalLines, nlCount]

theorem remLines_of_length_le {buf : List Nat} {i : Nat} (h : buf.length ≤ i) :
    remLines buf i = 0 := by
  unfold remLines nlCount
  rw [List.drop_eq_nil_of_le h]
  simp only [List.count_nil]
  have : ¬ i < buf.length := by omega
  simp [this]

theorem remLines_succ_nl {buf : List Nat} {i : Nat} (h : i < buf.length)
    (hc : buf.getD i 0 = NL) : remLines buf i = remLines buf (i + 1) + 1 := by
  unfold remLines nlCount
  rw [drop_getD_cons h, hc, List.count_cons_self]
  by_cases hl : buf.getD (buf.length - 1) 0 = NL
  · rw [if_neg (fun hx => hx.2 hl), if_neg (fun hx => hx.2 hl)]
  · have hne : i ≠ buf.length - 1 := fun he => hl (he ▸ hc)
    rw [if_pos ⟨h, hl⟩, if_pos ⟨by omega, hl⟩]

theorem remLines_succ_other {buf : List Nat} {i : Nat} (h : i < buf.length)
    (hc : buf.getD i 0 ≠ NL) (hne : i ≠ buf.length - 1) :
    remLines buf i = remLines buf (i + 1) := by
  unfold remLines nlCount
  rw [drop_getD_cons h]
  rw [List.count_cons_of_ne (fun he => hc he.symm) _]
  by_cases hl : buf.getD (buf.length - 1) 0 = NL
  · rw [if_neg (fun hx => hx.2 hl), if_neg (fun hx => hx.2 hl)]
  · rw [if_pos ⟨h, hl⟩, if_pos ⟨by omega, hl⟩]

theorem remLines_last {buf : List Nat} {i : Nat} (h : i < buf.length)
    (hc : buf.getD i 0 ≠ NL) (he : i = buf.length - 1) :
    remLines buf i = 1 := by
  unfold remLines nlCount
  rw [drop_getD_cons h, List.drop_eq_nil_of_le (by omega)]
  rw [List.count_cons_of_ne (fun hx => hc hx.symm) _]
  have hl : buf.getD (buf.length - 1) 0 ≠ NL := he ▸ hc
  rw [if_pos ⟨h, hl⟩]
  simp

theorem remLines_pos_aux (buf : List Nat) :
    ∀ k i, buf.length - i ≤ k → i < buf.length → 1 ≤ remLines buf i := by
  intro k
  induction k with
  | zero => intro i h1 h2; omega
  | succ k ih =>
    intro i h1 h2
    by_cases hc : buf.getD i 0 = NL
    · rw [remLines_succ_nl h2 hc]; omega
    · by_cases he : i = buf.length - 1
      · rw [remLines_last h2 hc he]
      · rw [remLines_succ_other h2 hc he]
        exact ih (i + 1) (by omega) (by omega)

theorem remLines_pos {buf : List Nat} {i : Nat} (h : i < buf.length) :
    1 ≤ remLines buf i :=
  remLines_pos_aux buf (buf.length - i) i (Nat.le_refl _) h

theorem remLines_anti (buf : List Nat) {i j : Nat} (hij : i ≤ j) :
    remLines buf j ≤ remLines buf i := by
  unfold remLines
  have hd : (buf.drop i).drop (j - i) = buf.drop j := by
    rw [List.drop_drop]
    congr 1
    omega
  have hsub : (buf.drop j).Sublist (buf.drop i) := by
    rw [← hd]
    exact List.drop_sublist _ _
  have hcount : nlCount (buf.drop j) ≤ nlCount (buf.drop i) :=
    List.Sublist.count_le hsub NL
  split_ifs with h1 h2 h2 <;> omega

theorem fixCount_le_remLines {buf : List Nat} {i : Nat} (st : ScanState)
    (h : i < buf.length) : fixCount buf st ≤ remLines buf i := by
  unfold fixCount
  split_ifs with hx
  · by_cases hl : buf.getD (buf.length - 1) 0 = NL
    · rw [hl] at hx
      simp at hx
    · exact remLines_pos h
  · exact Nat.zero_le _

theorem pot_le_remLines {buf : List Nat} {i j : Nat} (st : ScanState)
    (hij : i ≤ j) (h : i < buf.length) : pot buf j st ≤ remLines buf i := by
  unfold pot
  split_ifs with hj
  · exact fixCount_le_remLines st h
  · exact remLines_anti buf hij

theorem nlCount_drop_succ_nl {buf : List Nat} {i : Nat} (h : i < buf.length)
    (hc : buf.getD i 0 = NL) :
    nlCount (buf.drop i) = nlCount (buf.drop (i + 1)) + 1 := by
  unfold nlCount
  rw [drop_getD_cons h, hc, List.count_cons_self]

theorem nlCount_drop_succ_other {buf : List Nat} {i : Nat} (h : i < buf.length)
    (hc : buf.getD i 0 ≠ NL) :
    nlCount (buf.drop i) = nlCount (buf.drop (i + 1)) := by
  unfold nlCount
  rw [drop_getD_cons h, List.count_cons_of_ne (fun he => hc he.symm) _]

theorem nlCount_drop_marker {buf : List Nat} {i : Nat} {m : List Nat}
    (hm : matchesAt buf i m = true) (hNL : NL ∉ m) :
    nlCount (buf.drop i) = nlCount (buf.drop (i + m.length)) := by
  have hb := matchesAt_bytes hm
  have hsplit : buf.drop i = m ++ buf.drop (i + m.length) := by
    conv_lhs => rw [← List.take_append_drop m.length (buf.drop i)]
    rw [hb, List.drop_drop]
  rw [hsplit]
  unfold nlCount
  rw [List.count_append, List.count_eq_zero.mpr hNL]
  omega

/-! ## Properties of a single loop iteration -/

theorem scanStep_fst_le (buf : List Nat) (lang : LangSyntax) (i : Nat)
    (st : ScanState) (acc : FileStats) (h : i < buf.length) :
    (scanStep buf lang i st acc).1 ≤ buf.length := by
  unfold scanStep scanStepTail
  split_ifs with h1 h2 h3 h4 h5 h6 h7 <;> dsimp only
  · omega
  · omega
  · omega
  · exact matchesAt_le (by
      simp only [Bool.and_eq_true] at h4
      exact h4.2)
  · exact matchesAt_le (by
      simp only [Bool.and_eq_true] at h5
      exact h5.2)
  · exact matchesAt_le (by
      simp only [Bool.and_eq_true] at h6
      exact h6.2)
  · omega
  · omega

theorem scanStep_fst_lt (buf : List Nat) (lang : LangSyntax) (i : Nat)
    (st : ScanState) (acc : FileStats) (h : i < buf.length)
    (hm1 : 1 ≤ lang.line_comment.length) (hm2 : 1 ≤ lang.block_start.length)
    (hm3 : 1 ≤ lang.block_end.length) :
    i < (scanStep buf lang i st acc).1 := by
  unfold scanStep scanStepTail
  split_ifs <;> dsimp only <;> omega

theorem scanStep_upper (buf : List Nat) (lang : LangSyntax) (i : Nat)
    (st : ScanState) (acc : FileStats) (h : i < buf.length) :
    linesSum (scanStep buf lang i st acc).2.2 +
      pot buf (scanStep buf lang i st acc).1 (scanStep buf lang i st acc).2.1 ≤
      linesSum acc + remLines buf i := by
  unfold scanStep scanStepTail
  split_ifs with h1 h2 h3 h4 h5 h6 h7
  · dsimp only
    rw [linesSum_classifyLine]
    have hh : buf.getD i 0 = NL ∨ i = buf.length - 1 := by simpa using h1
    unfold pot
    split_ifs with hl
    · have h0 : fixCount buf
          { st with in_line_comment := false, has_code := false } = 0 := by
        unfold fixCount
        simp
      rw [h0]
      have := remLines_pos h
      omega
    · rcases hh with hc | he
      · rw [remLines_succ_nl h hc]
        omega
      · omega
  · exact Nat.add_le_add_left (pot_le_remLines _ (by omega) h) _
  · exact Nat.add_le_add_left (pot_le_remLines _ (by omega) h) _
  · exact Nat.add_le_add_left (pot_le_remLines _ (by omega) h) _
  · exact Nat.add_le_add_left (pot_le_remLines _ (by omega) h) _
  · exact Nat.add_le_add_left (pot_le_remLines _ (by omega) h) _
  · exact Nat.add_le_add_left (pot_le_remLines _ (by omega) h) _
  · exact Nat.add_le_add_left (pot_le_remLines _ (by omega) h) _

theorem scanStep_lower (buf : List Nat) (lang : LangSyntax) (i : Nat)
    (st : ScanState) (acc : FileStats) (h : i < buf.length)
    (hb : NL ∉ lang.block_start) (hbe : NL ∉ lang.block_end)
    (hlc : NL ∉ lang.line_comment) :
    linesSum acc + nlCount (buf.drop i) ≤
      linesSum (scanStep buf lang i st acc).2.2 +
        nlCount (buf.drop (scanStep buf lang i st acc).1) := by
  unfold scanStep scanStepTail
  split_ifs with h1 h2 h3 h4 h5 h6 h7 <;> dsimp only
  · rw [linesSum_classifyLine]
    by_cases hc : buf.getD i 0 = NL
    · rw [nlCount_drop_succ_nl h hc]
      omega
    · rw [nlCount_drop_succ_other h hc]
      omega
  · rw [nlCount_drop_succ_other h (by
      intro hc
      apply h1
      rw [hc]
      simp)]
  · rw [nlCount_drop_succ_other h (by
      intro hc
      apply h1
      rw [hc]
      simp)]
  · rw [nlCount_drop_marker (by
      simp only [Bool.and_eq_true] at h4
      exact h4.2) hb]
  · rw [nlCount_drop_marker (by
      simp only [Bool.and_eq_true] at h5
      exact h5.2) hbe]
  · rw [nlCount_drop_marker (by
      simp only [Bool.and_eq_true] at h6
      exact h6.2) hlc]
  · rw [nlCount_drop_succ_other h (by
      intro hc
      apply h1
      rw [hc]
      simp)]
  · rw [nlCount_drop_succ_other h (by
      intro hc
      apply h1
      rw [hc]
      simp)]

/-! ## Loop invariants -/

theorem countLoop_isSome (buf : List Nat) (lang : LangSyntax)
    (hm1 : 1 ≤ lang.line_comment.length) (hm2 : 1 ≤ lang.block_start.length)
    (hm3 : 1 ≤ lang.block_end.length) :
    ∀ fuel i st acc, buf.length ≤ i + fuel →
      (countLoop buf lang fuel i st acc).isSome := by
  intro fuel
  induction fuel with
  | zero =>
    intro i st acc hle
    simp only [countLoop]
    rw [if_neg (by omega)]
    rfl
  | succ fuel ih =>
    intro i st acc hle
    simp only [countLoop]
    by_cases hi : i < buf.length
    · rw [if_pos hi]
      apply ih
      have := scanStep_fst_lt buf lang i st acc hi hm1 hm2 hm3
      omega
    · rw [if_neg hi]
      rfl

theorem countLoop_upper (buf : List Nat) (lang : LangSyntax) :
    ∀ fuel i st acc st' acc',
      countLoop buf lang fuel i st acc = some (st', acc') →
      linesSum acc' + fixCount buf st' ≤ linesSum acc + pot buf i st := by
  intro fuel
  induction fuel with
  | zero =>
    intro i st acc st' acc' heq
    simp only [countLoop] at heq
    by_cases hi : i < buf.length
    · rw [if_pos hi] at heq
      cases heq
    · rw [if_neg hi] at heq
      cases heq
      unfold pot
      rw [if_pos (by omega)]
  | succ fuel ih =>
    intro i st acc st' acc' heq
    simp only [countLoop] at heq
    by_cases hi : i < buf.length
    · rw [if_pos hi] at heq
      have hstep := scanStep_upper buf lang i st acc hi
      have hrec := ih _ _ _ _ _ heq
      unfold pot
      rw [if_neg (by omega)]
      omega
    · rw [if_neg hi] at heq
      cases heq
      unfold pot
      rw [if_pos (by omega)]

theorem countLoop_lower (buf : List Nat) (lang : LangSyntax)
    (hb : NL ∉ lang.block_start) (hbe : NL ∉ lang.block_end)
    (hlc : NL ∉ lang.line_comment) :
    ∀ fuel i st acc st' acc',
      countLoop buf lang fuel i st acc = some (st', acc') →
      linesSum acc + nlCount (buf.drop i) ≤ linesSum acc' := by
  intro fuel
  induction fuel with
  | zero =>
    intro i st acc st' acc' heq
    simp only [countLoop] at heq
    by_cases hi : i < buf.length
    · rw [if_pos hi] at heq
      cases heq
    · rw [if_neg hi] at heq
      cases heq
      rw [List.drop_eq_nil_of_le (by omega)]
      simp [nlCount]
  | succ fuel ih =>
    intro i st acc st' acc' heq
    simp only [countLoop] at heq
    by_cases hi : i < buf.length
    · rw [if_pos hi] at heq
      have hstep := scanStep_lower buf lang i st acc hi hb hbe hlc
      have hrec := ih _ _ _ _ _ heq
      omega
    · rw [if_neg hi] at heq
      cases heq
      rw [List.drop_eq_nil_of_le (by omega)]
      simp [nlCount]

/-- Upper bound on the classified total: the scan never counts more lines
than the buffer has. -/
theorem sum_le_totalLines {buf : List Nat} {lang : LangSyntax} {stats : FileStats}
    (h : count_lines buf lang = some stats) :
    linesSum stats ≤ totalLines buf := by
  unfold count_lines at h
  cases hcl : countLoop buf lang buf.length 0 initScanState
      { lines_code := 0, lines_comment := 0, lines_blank := 0, size := buf.length } with
  | none =>
    rw [hcl] at h
    cases h
  | some p =>
    obtain ⟨st, acc⟩ := p
    rw [hcl] at h
    simp only [Option.map_some'] at h
    cases h
    rw [linesSum_finalFix]
    have hloop := countLoop_upper buf lang buf.length 0 initScanState _ st acc hcl
    have hsum0 : linesSum
        { lines_code := 0, lines_comment := 0, lines_blank := 0, size := buf.length } = 0 := rfl
    have hpot : pot buf 0 initScanState ≤ totalLines buf := by
      unfold pot
      split_ifs with h0
      · have hnil : buf = [] := List.length_eq_zero.mp (by omega)
        subst hnil
        simp [fixCount, initScanState, totalLines, nlCount]
      · rw [remLines_zero]
    omega

/-- Lower bound on the classified total: when no marker contains a newline
byte, every newline byte of the buffer is classified. -/
theorem nlCount_le_sum {buf : List Nat} {lang : LangSyntax} {stats : FileStats}
    (hb : NL ∉ lang.block_start) (hbe : NL ∉ lang.block_end)
    (hlc : NL ∉ lang.line_comment)
    (h : count_lines buf lang = some stats) :
    nlCount buf ≤ linesSum stats := by
  unfold count_lines at h
  cases hcl : countLoop buf lang buf.length 0 initScanState
      { lines_code := 0, lines_comment := 0, lines_blank := 0, size := buf.length } with
  | none =>
    rw [hcl] at h
    cases h
  | some p =>
    obtain ⟨st, acc⟩ := p
    rw [hcl] at h
    simp only [Option.map_some'] at h
    cases h
    rw [linesSum_finalFix]
    have hloop := countLoop_lower buf lang hb hbe hlc buf.length 0 initScanState _ st acc hcl
    have hsum0 : linesSum
        { lines_code := 0, lines_comment := 0, lines_blank := 0, size := buf.length } = 0 := rfl
    rw [List.drop_zero] at hloop
    omega

theorem count_lines_isSome (buf : List Nat) (lang : LangSyntax)
    (hm1 : 1 ≤ lang.line_comment.length) (hm2 : 1 ≤ lang.block_start.length)
    (hm3 : 1 ≤ lang.block_end.length) : (count_lines buf lang).isSome := by
  have h := countLoop_isSome buf lang hm1 hm2 hm3 buf.length 0 initScanState
    { lines_code := 0, lines_comment := 0, lines_blank := 0, size := buf.length }
    (by omega)
  unfold count_lines
  cases hcl : countLoop buf lang buf.length 0 initScanState
      { lines_code := 0, lines_comment := 0, lines_blank := 0, size := buf.length } with
  | none =>
    rw [hcl] at h
    cases h
  | some p =>
    rfl

/-! ## Equivalence with the lookback-checked variant -/

theorem stringUpdateChk_eq {buf : List Nat} {i : Nat} {st : ScanState} {c : Nat}
    (hinv : st.in_string = true → 1 ≤ i) :
    stringUpdateChk buf i st c = some (stringUpdate buf i st c) := by
  unfold stringUpdateChk stringUpdate
  by_cases hA : (!st.in_line_comment && !st.in_block_comment) = true
  · rw [if_pos hA, if_pos hA]
    by_cases hB : (!st.in_string && (c == 34 || c == 39)) = true
    · rw [if_pos hB, if_pos hB]
    · rw [if_neg hB, if_neg hB]
      by_cases hC : (st.in_string && c == st.string_char) = true
      · rw [if_pos hC]
        have hi : 1 ≤ i := hinv (by
          simp only [Bool.and_eq_true] at hC
          exact hC.1)
        rw [if_neg (by omega : ¬ i = 0)]
        by_cases hD : (!(buf.getD (i - 1) 0 == BSL)) = true
        · rw [if_pos hD, if_pos (by rw [hC, hD]; rfl)]
        · rw [if_neg hD, if_neg (by
            rw [Bool.and_eq_true]
            rintro ⟨-, hD'⟩
            exact hD hD')]
      · rw [if_neg hC, if_neg (by
          rw [Bool.and_eq_true, Bool.and_eq_true]
          rintro ⟨⟨hx, hy⟩, -⟩
          exact hC (by rw [hx, hy]; rfl))]
  · rw [if_neg hA, if_neg hA]

theorem scanStepChk_eq (buf : List Nat) (lang : LangSyntax) (i : Nat)
    (st : ScanState) (acc : FileStats) (hinv : st.in_string = true → 1 ≤ i) :
    scanStepChk buf lang i st acc = some (scanStep buf lang i st acc) := by
  unfold scanStepChk scanStep
  rw [stringUpdateChk_eq hinv]
  split_ifs <;> rfl

theorem scanStep_inString_inv (buf : List Nat) (lang : LangSyntax) (i : Nat)
    (st : ScanState) (acc : FileStats) (hinv : st.in_string = true → 1 ≤ i) :
    (scanStep buf lang i st acc).2.1.in_string = true →
      1 ≤ (scanStep buf lang i st acc).1 := by
  unfold scanStep scanStepTail
  split_ifs with h1 h2 h3 h4 h5 h6 h7 <;> dsimp only <;> intro hs
  · omega
  · omega
  · omega
  · exact absurd hs h3
  · exact absurd hs h3
  · exact absurd hs h3
  · omega
  · omega

theorem countLoopChk_eq_aux (buf : List Nat) (lang : LangSyntax) :
    ∀ fuel i st acc, (st.in_string = true → 1 ≤ i) →
      countLoopChk buf lang fuel i st acc = countLoop buf lang fuel i st acc := by
  intro fuel
  induction fuel with
  | zero =>
    intro i st acc hinv
    simp only [countLoopChk, countLoop]
  | succ fuel ih =>
    intro i st acc hinv
    simp only [countLoopChk, countLoop]
    by_cases hi : i < buf.length
    · rw [if_pos hi, if_pos hi]
      rw [scanStepChk_eq buf lang i st acc hinv]
      exact ih _ _ _ (scanStep_inString_inv buf lang i st acc hinv)
    · rw [if_neg hi, if_neg hi]

/-! ## Step behaviour at specific positions -/

theorem scanStep_at_last (buf : List Nat) (lang : LangSyntax) (st : ScanState)
    (acc : FileStats) (h : buf ≠ []) :
    scanStep buf lang (buf.length - 1) st acc =
      (buf.length, { st with in_line_comment := false, has_code := false },
        classifyLine st acc) := by
  have hlen : 1 ≤ buf.length := List.length_pos.mpr h
  unfold scanStep
  rw [if_pos (by simp)]
  rw [Nat.sub_add_cancel hlen]

theorem scanStep_string_end (buf : List Nat) (lang : LangSyntax) (i : Nat)
    (st : ScanState) (acc : FileStats)
    (h : i < buf.length) (hne : i ≠ buf.length - 1)
    (hstr : st.in_string = true) (hnl : st.in_line_comment = false)
    (hnb : st.in_block_comment = false)
    (hq : st.string_char = 34 ∨ st.string_char = 39)
    (hc : buf.getD i 0 = st.string_char) :
    (scanStep buf lang i st acc).2.1.in_string = (buf.getD (i - 1) 0 == BSL) := by
  have hb1 : (buf.getD i 0 == NL || i == buf.length - 1) = false := by
    rw [Bool.or_eq_false_iff]
    constructor
    · rw [beq_eq_false_iff_ne, hc]
      rcases hq with h' | h' <;> rw [h'] <;> decide
    · rw [beq_eq_false_iff_ne]
      exact hne
  have hb2 : isspaceB (buf.getD i 0) = false := by
    rw [hc]
    rcases hq with h' | h' <;> rw [h'] <;> decide
  have hB : (!st.in_string && (buf.getD i 0 == 34 || buf.getD i 0 == 39)) = false := by
    rw [hstr]
    rfl
  have hCeq : (buf.getD i 0 == st.string_char) = true := by
    rw [hc]
    exact beq_self_eq_true _
  have hA : (!st.in_line_comment && !st.in_block_comment) = true := by
    rw [hnl, hnb]
    rfl
  by_cases hp : buf.getD (i - 1) 0 = BSL
  · have hD : (!(buf.getD (i - 1) 0 == BSL)) = false := by
      rw [hp]
      simp
    have hsu : stringUpdate buf i st (buf.getD i 0) = st := by
      unfold stringUpdate
      rw [if_pos hA, if_neg (by rw [hB]; exact Bool.false_ne_true),
        if_neg (by rw [hstr, hCeq, hD]; exact Bool.false_ne_true)]
    have hrhs : (buf.getD (i - 1) 0 == BSL) = true := by
      rw [hp]
      exact beq_self_eq_true _
    unfold scanStep
    rw [if_neg (by rw [hb1]; exact Bool.false_ne_true),
      if_neg (by rw [hb2]; exact Bool.false_ne_true), hsu]
    unfold scanStepTail
    rw [if_pos hstr]
    dsimp only
    rw [hstr, hrhs]
  · have hD : (!(buf.getD (i - 1) 0 == BSL)) = true := by
      rw [beq_eq_false_iff_ne.mpr hp]
      rfl
    have hsu : stringUpdate buf i st (buf.getD i 0) =
        { st with in_string := false } := by
      unfold stringUpdate
      rw [if_pos hA, if_neg (by rw [hB]; exact Bool.false_ne_true),
        if_pos (by rw [hstr, hCeq, hD]; rfl)]
    have hrhs : (buf.getD (i - 1) 0 == BSL) = false :=
      beq_eq_false_iff_ne.mpr hp
    unfold scanStep
    rw [if_neg (by rw [hb1]; exact Bool.false_ne_true),
      if_neg (by rw [hb2]; exact Bool.false_ne_true), hsu]
    unfold scanStepTail
    rw [hrhs]
    split_ifs <;> simp_all

/-! ## Directory-scan lemmas -/

theorem procEntries_skip_failed (res cbRes : Int) (rest : List DirEntry)
    (hres : res ≠ CLOC_SUCCESS) :
    procEntries cbRes (DirEntry.efile false res :: rest) = procEntries cbRes rest := by
  simp [procEntries, hres]

/-! ## Claims -/

/-- C1, counterexample: on the 2-byte buffer `/*` with C syntax, the
block-comment start marker match advances the cursor from position 0
straight to the end of the buffer, skipping the end-of-buffer line check,
so no line is counted at all: the counter sum is 0 while the buffer has
one line (no newline bytes, non-empty, not newline-terminated).  This
refutes the claimed equality `code + comment + blank = newline count + 1`
for this buffer. -/
theorem cloc_C1_counterexample :
    Option.map linesSum (count_lines (bytesOf "/*") cSyntax) = some 0 ∧
    totalLines (bytesOf "/*") = 1 ∧
    Option.map linesSum (count_lines (bytesOf "/*") cSyntax) ≠
      some (totalLines (bytesOf "/*")) := by decide

/-- C1, amended: for markers that contain no newline byte, the counter sum
is at most the line count and misses it by at most one, and it equals the
line count whenever the buffer is empty or ends in a newline (the deficit
can only come from a final non-newline-terminated line swallowed by a
marker match that consumes the remaining bytes). -/
theorem cloc_C1_amended (buf : List Nat) (lang : LangSyntax) (stats : FileStats)
    (hb : NL ∉ lang.block_start) (hbe : NL ∉ lang.block_end)
    (hlc : NL ∉ lang.line_comment)
    (h : count_lines buf lang = some stats) :
    linesSum stats ≤ totalLines buf ∧ totalLines buf ≤ linesSum stats + 1 ∧
      (buf = [] ∨ buf.getD (buf.length - 1) 0 = NL →
        linesSum stats = totalLines buf) := by
  have hup := sum_le_totalLines h
  have hlo := nlCount_le_sum hb hbe hlc h
  refine ⟨hup, ?_, ?_⟩
  · have htl : totalLines buf ≤ nlCount buf + 1 := by
      unfold totalLines
      split_ifs <;> omega
    omega
  · intro hor
    have htl : totalLines buf = nlCount buf := by
      unfold totalLines
      rcases hor with hnil | hlast
      · subst hnil
        simp [nlCount]
      · rw [if_neg (fun hx => hx.2 hlast)]
        omega
    omega

/-- Witness for C1 (amended) at the newline-terminated buffer `a\n` with
C syntax, where the sum equals the line count, 1. -/
theorem cloc_C1_amended_witness :
    (NL ∉ cSyntax.block_start ∧ NL ∉ cSyntax.block_end ∧
      NL ∉ cSyntax.line_comment ∧
      count_lines (bytesOf "a\n") cSyntax =
        some { lines_code := 1, lines_comment := 0, lines_blank := 0, size := 2 }) ∧
    (linesSum { lines_code := 1, lines_comment := 0, lines_blank := 0, size := 2 } ≤
        totalLines (bytesOf "a\n") ∧
      totalLines (bytesOf "a\n") ≤
        linesSum { lines_code := 1, lines_comment := 0, lines_blank := 0, size := 2 } + 1 ∧
      (bytesOf "a\n" = [] ∨
          (bytesOf "a\n").getD ((bytesOf "a\n").length - 1) 0 = NL →
        linesSum { lines_code := 1, lines_comment := 0, lines_blank := 0, size := 2 } =
          totalLines (bytesOf "a\n"))) :=
  ⟨⟨by decide, by decide, by decide, by decide⟩,
    cloc_C1_amended (bytesOf "a\n") cSyntax
      { lines_code := 1, lines_comment := 0, lines_blank := 0, size := 2 }
      (by decide) (by decide) (by decide) (by decide)⟩

/-- C2: on the 25-byte buffer `/* start\nmid\nend */ x();\n` with the C
syntax descriptor, the classifier counts 2 comment lines (lines 1-2, still
inside the block comment at their newlines), 1 code line (line 3, because
the `x();` after the block-end marker sets `has_code`), and 0 blank
lines. -/
theorem cloc_C2 :
    count_lines (bytesOf "/* start\nmid\nend */ x();\n") cSyntax =
      some { lines_code := 1, lines_comment := 2, lines_blank := 0, size := 25 } := by
  decide

/-- C3, counterexample: a directory containing one file that fails
(`process_file` returns `CLOC_ERROR_IOFAIL`) followed by one file that
succeeds.  The failing file is skipped, the remaining file is processed
(the callback runs once), and `process_directory` returns `CLOC_SUCCESS`,
so `main` contributes exit code 0 - the exit status does NOT reflect the
failure, refuting that part of the claim. -/
theorem cloc_C3_counterexample :
    procEntries 0
        [DirEntry.efile false CLOC_ERROR_IOFAIL, DirEntry.efile false CLOC_SUCCESS] =
      (CLOC_SUCCESS, 1) ∧
    dirExitCode 0
        [DirEntry.efile false CLOC_ERROR_IOFAIL, DirEntry.efile false CLOC_SUCCESS] = 0 := by
  constructor
  · simp [procEntries, CLOC_ERROR_IOFAIL, CLOC_SUCCESS]
  · simp [dirExitCode, procEntries, CLOC_ERROR_IOFAIL, CLOC_SUCCESS]

/-- C3, amended: a file inside a directory scan whose `process_file` call
fails (open, stat or mapping failure, or unidentifiable language - any
non-`CLOC_SUCCESS` result) is skipped and the scan of the remaining
entries proceeds exactly as if the file were absent; consequently the
directory result code and `main`'s exit-code contribution are unchanged,
i.e. the process exit status does not reflect such per-file failures. -/
theorem cloc_C3_amended (res cbRes : Int) (rest : List DirEntry)
    (hres : res ≠ CLOC_SUCCESS) :
    procEntries cbRes (DirEntry.efile false res :: rest) = procEntries cbRes rest ∧
    dirExitCode cbRes (DirEntry.efile false res :: rest) = dirExitCode cbRes rest := by
  have h1 := procEntries_skip_failed res cbRes rest hres
  refine ⟨h1, ?_⟩
  unfold dirExitCode
  rw [h1]

/-- Witness for C3 (amended): a file with an unidentified language
(`CLOC_ERROR_ARG`) ahead of a succeeding file. -/
theorem cloc_C3_amended_witness :
    CLOC_ERROR_ARG ≠ CLOC_SUCCESS ∧
    (procEntries 0
        [DirEntry.efile false CLOC_ERROR_ARG, DirEntry.efile false CLOC_SUCCESS] =
        procEntries 0 [DirEntry.efile false CLOC_SUCCESS] ∧
      dirExitCode 0
          [DirEntry.efile false CLOC_ERROR_ARG, DirEntry.efile false CLOC_SUCCESS] =
        dirExitCode 0 [DirEntry.efile false CLOC_SUCCESS]) :=
  ⟨by decide,
    cloc_C3_amended CLOC_ERROR_ARG 0 [DirEntry.efile false CLOC_SUCCESS] (by decide)⟩

/-- C4: in the `InString` state, at a byte equal to the remembered quote
character (`"` or `'`), and not preempted by the end-of-line check, the
scanner stays in the string if and only if the single immediately
preceding byte is a backslash - the decision is exactly the one-byte
lookback `*(p-1) != '\\'`, with no deeper lookback, so an escaped quote
does not terminate the string and a quote preceded by a backslash is not a
terminator even when that backslash is itself escaped. -/
theorem cloc_C4 (buf : List Nat) (lang : LangSyntax) (i : Nat)
    (st : ScanState) (acc : FileStats)
    (h : i < buf.length) (hne : i ≠ buf.length - 1)
    (hstr : st.in_string = true) (hnl : st.in_line_comment = false)
    (hnb : st.in_block_comment = false)
    (hq : st.string_char = 34 ∨ st.string_char = 39)
    (hc : buf.getD i 0 = st.string_char) :
    (scanStep buf lang i st acc).2.1.in_string = (buf.getD (i - 1) 0 == BSL) :=
  scanStep_string_end buf lang i st acc h hne hstr hnl hnb hq hc

/-- Witness for C4 at the escaped quote of `"a\"b"` (bytes
34 97 92 34 98 34, cursor at index 3): the preceding byte is a backslash,
so the scanner remains in the string. -/
theorem cloc_C4_witness :
    ((3 : Nat) < (bytesOf "\"a\\\"b\"").length ∧
      (3 : Nat) ≠ (bytesOf "\"a\\\"b\"").length - 1 ∧
      (bytesOf "\"a\\\"b\"").getD 3 0 = 34) ∧
    (scanStep (bytesOf "\"a\\\"b\"") cSyntax 3
        { in_block_comment := false, in_line_comment := false, has_code := true,
          in_string := true, string_char := 34 }
        { lines_code := 0, lines_comment := 0, lines_blank := 0, size := 6 }).2.1.in_string =
      ((bytesOf "\"a\\\"b\"").getD (3 - 1) 0 == BSL) :=
  ⟨⟨by decide, by decide, by decide⟩,
    cloc_C4 (bytesOf "\"a\\\"b\"") cSyntax 3
      { in_block_comment := false, in_line_comment := false, has_code := true,
        in_string := true, string_char := 34 }
      { lines_code := 0, lines_comment := 0, lines_blank := 0, size := 6 }
      (by decide) (by decide) (by decide) (by decide) (by decide)
      (Or.inl (by decide)) (by decide)⟩

/-- C5: a newline-terminated line holding the string literal
`"// not a comment"` with C syntax is counted as one code line and no
comment line - the line-comment marker inside the active string is
consumed literally. -/
theorem cloc_C5 :
    count_lines (bytesOf "\"// not a comment\"\n") cSyntax =
      some { lines_code := 1, lines_comment := 0, lines_blank := 0, size := 19 } := by
  decide

/-- C6: for every byte buffer (arbitrary byte values, including embedded
NUL) and every syntax descriptor with non-empty markers, the classifier
terminates with a populated result (no error, no reject state), and the
cursor strictly advances on every step. -/
theorem cloc_C6 (buf : List Nat) (lang : LangSyntax) (i : Nat) (st : ScanState)
    (acc : FileStats)
    (hm1 : 1 ≤ lang.line_comment.length) (hm2 : 1 ≤ lang.block_start.length)
    (hm3 : 1 ≤ lang.block_end.length) :
    (count_lines buf lang).isSome = true ∧
      (i < buf.length → i < (scanStep buf lang i st acc).1) :=
  ⟨count_lines_isSome buf lang hm1 hm2 hm3,
    fun hi => scanStep_fst_lt buf lang i st acc hi hm1 hm2 hm3⟩

/-- Witness for C6 on a buffer with embedded NUL bytes (0 120 10 0) and C
syntax, at cursor 0 in the initial state. -/
theorem cloc_C6_witness :
    (1 ≤ cSyntax.line_comment.length ∧ 1 ≤ cSyntax.block_start.length ∧
      1 ≤ cSyntax.block_end.length) ∧
    ((count_lines [0, 120, 10, 0] cSyntax).isSome = true ∧
      (0 < ([0, 120, 10, 0] : List Nat).length →
        0 < (scanStep [0, 120, 10, 0] cSyntax 0 initScanState
          { lines_code := 0, lines_comment := 0, lines_blank := 0, size := 4 }).1)) :=
  ⟨⟨by decide, by decide, by decide⟩,
    cloc_C6 [0, 120, 10, 0] cSyntax 0 initScanState
      { lines_code := 0, lines_comment := 0, lines_blank := 0, size := 4 }
      (by decide) (by decide) (by decide)⟩

/-- C7: a marker can match at the cursor only when it fits entirely within
the remaining buffer - a marker that would extend beyond the buffer
boundary cannot match - and consequently one loop iteration never moves
the cursor past the end of the buffer. -/
theorem cloc_C7 (buf : List Nat) (lang : LangSyntax) (m : List Nat) (i : Nat)
    (st : ScanState) (acc : FileStats) :
    (buf.length < i + m.length → matchesAt buf i m = false) ∧
      (i < buf.length → (scanStep buf lang i st acc).1 ≤ buf.length) := by
  constructor
  · intro hlong
    cases hmm : matchesAt buf i m
    · rfl
    · exact absurd (matchesAt_le hmm) (by omega)
  · intro hi
    exact scanStep_fst_le buf lang i st acc hi

/-- Witness for C7: on the 1-byte buffer `/`, the 2-byte block-start
marker of C extends beyond the buffer and does not match, and the step at
cursor 0 stays within bounds. -/
theorem cloc_C7_witness :
    ((bytesOf "/").length < 0 + ([47, 42] : List Nat).length →
        matchesAt (bytesOf "/") 0 [47, 42] = false) ∧
      (0 < (bytesOf "/").length →
        (scanStep (bytesOf "/") cSyntax 0 initScanState
          { lines_code := 0, lines_comment := 0, lines_blank := 0, size := 1 }).1 ≤
          (bytesOf "/").length) :=
  cloc_C7 (bytesOf "/") cSyntax [47, 42] 0 initScanState
    { lines_code := 0, lines_comment := 0, lines_blank := 0, size := 1 }

/-- C8: the classifier never over-counts - the sum of the three line
counters is at most the number of newline bytes plus one for a final
non-newline-terminated line; the post-loop code increment fires only when
`has_code` survived the loop, which cannot happen when the in-loop
end-of-line branch classified the final line. -/
theorem cloc_C8 (buf : List Nat) (lang : LangSyntax) (stats : FileStats)
    (h : count_lines buf lang = some stats) :
    linesSum stats ≤ totalLines buf :=
  sum_le_totalLines h

/-- Witness for C8 on the buffer `x//` with C syntax, where the post-loop
increment fires (the line-comment marker match consumed the buffer end
while `has_code` was set) and the sum, 1, equals the line count. -/
theorem cloc_C8_witness :
    count_lines (bytesOf "x//") cSyntax =
      some { lines_code := 1, lines_comment := 0, lines_blank := 0, size := 3 } ∧
    linesSum { lines_code := 1, lines_comment := 0, lines_blank := 0, size := 3 } ≤
      totalLines (bytesOf "x//") :=
  ⟨by decide,
    cloc_C8 (bytesOf "x//") cSyntax
      { lines_code := 1, lines_comment := 0, lines_blank := 0, size := 3 } (by decide)⟩

/-- C9: at the final byte position the end-of-line check runs first, so
the final byte never sets `has_code`: the step at position `length - 1`
is exactly the end-of-line classification of the current state; in
particular the 1-byte buffer `x` yields one blank line, not a code
line. -/
theorem cloc_C9 (buf : List Nat) (lang : LangSyntax) (st : ScanState)
    (acc : FileStats) (h : buf ≠ []) :
    scanStep buf lang (buf.length - 1) st acc =
      (buf.length, { st with in_line_comment := false, has_code := false },
        classifyLine st acc) ∧
    count_lines [120] cSyntax =
      some { lines_code := 0, lines_comment := 0, lines_blank := 1, size := 1 } :=
  ⟨scanStep_at_last buf lang st acc h, by decide⟩

/-- Witness for C9 on the 1-byte buffer `x` (byte 120). -/
theorem cloc_C9_witness :
    ([120] : List Nat) ≠ [] ∧
    (scanStep [120] cSyntax (([120] : List Nat).length - 1) initScanState
        { lines_code := 0, lines_comment := 0, lines_blank := 0, size := 1 } =
      (([120] : List Nat).length,
        { initScanState with in_line_comment := false, has_code := false },
        classifyLine initScanState
          { lines_code := 0, lines_comment := 0, lines_blank := 0, size := 1 }) ∧
      count_lines [120] cSyntax =
        some { lines_code := 0, lines_comment := 0, lines_blank := 1, size := 1 }) :=
  ⟨by decide,
    cloc_C9 [120] cSyntax initScanState
      { lines_code := 0, lines_comment := 0, lines_blank := 0, size := 1 } (by decide)⟩

/-- C10: starting from the initial state, the scan that flags any
out-of-range one-byte lookback (`countLoopChk`) computes exactly the same
result as the plain scan: the `InString` state is only ever reached with
the cursor at least one past a consumed opening quote, so the lookback
`*(p-1)` always reads a valid position and the out-of-range branch is
unreachable. -/
theorem cloc_C10 (buf : List Nat) (lang : LangSyntax) (fuel : Nat) (acc : FileStats) :
    countLoopChk buf lang fuel 0 initScanState acc =
      countLoop buf lang fuel 0 initScanState acc :=
  countLoopChk_eq_aux buf lang fuel 0 initScanState acc
    (fun hstr => absurd hstr (by decide))

end Cloc
